import Mathlib

/-!
Shallow embedding of `whisper_gui.py` (PyWhisper): the chunked-transcription
pipeline of `WhisperTranscriber` and `WhisperGUI.start_transcription`.
Byte sizes are naturals, audio positions/durations are naturals (milliseconds,
matching pydub's integer-millisecond slicing). The float chunk-count
computation of `split_audio` (`file_size / (1024*1024)`, `math.ceil`) is
embedded exactly over `ℚ` (exact at all reachable file sizes, since the
divisor is a power of two and sizes are far below 2^53); the window-boundary
computation (`len(audio) / num_chunks`, `int(i * chunk_duration)`) is *not*
float-exact, so its binary64 round-to-nearest-even arithmetic is modelled
explicitly by `fl`.
-/

namespace PyWhisper

/-- Temporary-file paths that appear in a pipeline run: the normalized
artifact produced by `optimize_audio`, and the per-chunk temp files
(`..._chunk{i}.ogg`) produced by `split_audio`. -/
inductive TmpFile where
  | norm : TmpFile
  | chunk : ℕ → TmpFile
deriving DecidableEq, Repr

/-- The keyword arguments of a pydub `export` call, as used by
`optimize_audio` (lines 57-67) and `split_audio` (lines 102-107). -/
structure ExportSettings where
  format : String
  codec : String
  bitrate : Option String
  parameters : List String
deriving DecidableEq, Repr

/-- `optimize_audio`'s export call (lines 57-67): Ogg Vorbis with an explicit
`bitrate='32k'` and ffmpeg parameters 16 kHz, mono, quality 4. -/
def optimizeExportSettings : ExportSettings :=
  { format := "ogg"
    codec := "libvorbis"
    bitrate := some "32k"
    parameters := ["-ar", "16000", "-ac", "1", "-aq", "4"] }

/-- `split_audio`'s per-chunk export call (lines 102-107): same format, codec
and ffmpeg parameters, but no `bitrate` keyword is passed. -/
def chunkExportSettings : ExportSettings :=
  { format := "ogg"
    codec := "libvorbis"
    bitrate := none
    parameters := ["-ar", "16000", "-ac", "1", "-aq", "4"] }

/-- `num_chunks = math.ceil(file_size_mb / chunk_size_mb)` with
`file_size_mb = file_size / (1024 * 1024)` (lines 82, 89), embedded over
exact rationals. -/
def numChunks (fileSize chunkSizeMb : ℕ) : ℕ :=
  ⌈(fileSize : ℚ) / (1024 * 1024) / (chunkSizeMb : ℚ)⌉₊

/-- One chunk's time window `[start, stop)` in milliseconds of the source
audio (`audio[start:end]`, line 99). -/
structure ChunkWindow where
  start : ℕ
  stop : ℕ
deriving DecidableEq, Repr

/-- Round a scaled significand to the nearest integer, ties to even — the
IEEE-754 default rounding used by Python float arithmetic. -/
def roundNearestEven (s : ℚ) : ℤ :=
  if s - ⌊s⌋ < 1 / 2 then ⌊s⌋
  else if 1 / 2 < s - ⌊s⌋ then ⌊s⌋ + 1
  else if Even ⌊s⌋ then ⌊s⌋ else ⌊s⌋ + 1

/-- The binary64 (Python float) value nearest to `q`, for nonnegative `q` in
the normal range: the scaled significand `q / 2 ^ (⌊log₂ q⌋ - 52)` lies in
`[2^52, 2^53)` and is rounded to the nearest representable, ties to even.
All floats the source computes (duration/chunk-count quotients and their
products with small integers) are nonnegative, normal and far from overflow,
so on them this is exactly Python's float rounding. -/
def fl (q : ℚ) : ℚ :=
  if q ≤ 0 then 0
  else (roundNearestEven (q / 2 ^ (Int.log 2 q - 52)) : ℚ) * 2 ^ (Int.log 2 q - 52)

/-- The window of chunk `i` (lines 97-98):
`start = int(i * chunk_duration)`, `end = int((i + 1) * chunk_duration)` with
`chunk_duration = len(audio) / num_chunks`. The division and each
multiplication are Python float (binary64) operations, each correctly
rounded — embedded via `fl`; `int()` truncates toward zero, which on these
nonnegative values is the floor. -/
def chunkWindow (L n i : ℕ) : ChunkWindow :=
  { start := ⌊fl ((i : ℚ) * fl ((L : ℚ) / (n : ℚ)))⌋₊
    stop := ⌊fl (((i : ℚ) + 1) * fl ((L : ℚ) / (n : ℚ)))⌋₊ }

/-- Result of `split_audio` (lines 79-113): the returned list of chunk paths,
the temp files it materialized, and the export operations it performed
(window sliced and settings used). -/
structure SplitResult where
  chunks : List TmpFile
  created : List TmpFile
  exports : List (ChunkWindow × ExportSettings)
deriving DecidableEq, Repr

/-- `split_audio(input_file, chunk_size_mb=20)` (lines 79-113): if the file
size is at most `chunk_size_mb` MB it returns `[input_file]` and performs no
export; otherwise it exports `num_chunks` windows to fresh temp files. -/
def split_audio (inputFile : TmpFile) (fileSize L chunkSizeMb : ℕ) : SplitResult :=
  if fileSize ≤ chunkSizeMb * 1024 * 1024 then
    { chunks := [inputFile], created := [], exports := [] }
  else
    let n := numChunks fileSize chunkSizeMb
    { chunks := (List.range n).map TmpFile.chunk
      created := (List.range n).map TmpFile.chunk
      exports := (List.range n).map (fun i => (chunkWindow L n i, chunkExportSettings)) }

/-- The request `transcribe` sends to the API (lines 126-131): model name,
language (`None` omits the parameter), prompt (`None` omits it), and
`response_format` (`'srt'` or `'json'`). -/
structure ApiRequest where
  model : String
  language : Option String
  prompt : Option String
  response_format : String
deriving DecidableEq, Repr

/-- The keyword arguments built at lines 126-131:
`language=language if language != 'auto' else None`,
`prompt=prompt_text if prompt_text and prompt_text.strip() else None`,
`response_format='srt' if create_srt else 'json'`. -/
def buildRequest (model_name : String) (create_srt : Bool)
    (prompt_text : Option String) (language : Option String) : ApiRequest :=
  { model := model_name
    language := if language = some "auto" then none else language
    prompt :=
      match prompt_text with
      | some p => if p.trim = "" then none else some p
      | none => none
    response_format := if create_srt then "srt" else "json" }

/-- The GUI's language handling (lines 378-380): the `'auto'` radio value is
turned into `None` before `transcribe` is called. -/
def guiLanguage (lang_var : String) : Option String :=
  if lang_var = "auto" then none else some lang_var

/-- The value `transcribe` returns for an API transcript (lines 136-139):
`(transcript, transcript)` when `create_srt`, else `(transcript.text, None)`.
The transcript payload is the SRT document when `create_srt` (the request
asked for `'srt'`), so both components are that same document. -/
def transcribe_result (create_srt : Bool) (transcript : String) :
    String × Option String :=
  if create_srt then (transcript, some transcript) else (transcript, none)

/-- Accumulated effect of the per-chunk loop of `start_transcription`
(lines 372-409). -/
structure LoopOut where
  texts : List String
  srts : List String
  disk : List TmpFile
  unlinks : List TmpFile
  ok : Bool
  calls : ℕ
deriving DecidableEq, Repr

/-- The per-chunk loop (lines 372-409): for each chunk in order, call the API
(`api i` is chunk `i`'s outcome; `none` means the call raised), append `text`
to `full_text`, append `srt` to `srt_parts` when truthy (`if srt:`), and
`os.unlink` the chunk file (lines 402-406). An API failure propagates out of
the loop at once, so later chunks are neither transcribed nor unlinked; the
failing chunk itself is counted as a call but is not unlinked. -/
def chunkLoop (create_srt : Bool) (api : ℕ → Option String) :
    ℕ → List TmpFile → List TmpFile → List TmpFile → LoopOut
  | _, [], disk, unl => ⟨[], [], disk, unl, true, 0⟩
  | i, c :: rest, disk, unl =>
    match api i with
    | none => ⟨[], [], disk, unl, false, 1⟩
    | some t =>
      let res := transcribe_result create_srt t
      let r := chunkLoop create_srt api (i + 1) rest (disk.erase c) (unl ++ [c])
      ⟨res.1 :: r.texts,
       match res.2 with
       | some s => if s = "" then r.srts else s :: r.srts
       | none => r.srts,
       r.disk, r.unlinks, r.ok, r.calls + 1⟩

/-- Observable outcome of one `start_transcription` run. -/
structure RunResult where
  finalDisk : List TmpFile
  unlinks : List TmpFile
  calls : ℕ
  displayedText : Option String
  srtCombined : Option (List String)
deriving DecidableEq, Repr

/-- `WhisperGUI.start_transcription` (lines 344-441) after a successful
`optimize_audio`: `audio_file` is the normalized artifact on disk;
`split_audio` may materialize chunk files; the per-chunk loop runs; on
success the joined text (`"\n\n".join(full_text)`, line 412) is shown and,
when `create_srt` and `srt_parts` is non-empty, the SRT parts are handed to
the aggregation step (line 418); on a loop failure the `except` branch shows
nothing. Either way the `finally` block (lines 434-441) unlinks `audio_file`
only if it still exists. `srtCombined` records the parts given to the
aggregation step (`none` when that step is not reached). -/
def start_transcription (create_srt : Bool) (api : ℕ → Option String)
    (fileSize L chunkSizeMb : ℕ) : RunResult :=
  let audio_file := TmpFile.norm
  let s := split_audio audio_file fileSize L chunkSizeMb
  let r := chunkLoop create_srt api 0 s.chunks (audio_file :: s.created) []
  let afterCleanup : List TmpFile × List TmpFile :=
    if audio_file ∈ r.disk then (r.disk.erase audio_file, r.unlinks ++ [audio_file])
    else (r.disk, r.unlinks)
  if r.ok then
    { finalDisk := afterCleanup.1
      unlinks := afterCleanup.2
      calls := r.calls
      displayedText := some (String.intercalate "\n\n" r.texts)
      srtCombined := if create_srt = true ∧ r.srts ≠ [] then some r.srts else none }
  else
    { finalDisk := afterCleanup.1
      unlinks := afterCleanup.2
      calls := r.calls
      displayedText := none
      srtCombined := none }

/-- One subtitle cue: start/end offsets in milliseconds and its text.
Cue indices are assigned by the aggregator. -/
structure Cue where
  start : ℕ
  stop : ℕ
  text : String
deriving DecidableEq, Repr

/-- Shift a cue's start/end offsets by a chunk's start offset. -/
def shiftCue (off : ℕ) (c : Cue) : Cue :=
  { c with start := off + c.start, stop := off + c.stop }

/-- Modelled from the spec: `WhisperTranscriber.combine_srt` is invoked at
line 418 of `start_transcription` but has no definition anywhere in the
source file. Per spec section 4.4 (ResultAggregator), it is modelled at cue
level: each part is a chunk's start offset in the original timeline paired
with that chunk's cues (relative to the chunk's own zero); every cue of
chunk `i` is shifted by chunk `i`'s start offset, intra-chunk order is
preserved, and cues are renumbered with a single running counter starting
at 1. -/
def combine_srt (parts : List (ℕ × List Cue)) : List (ℕ × Cue) :=
  let shifted := (parts.map (fun p => p.2.map (shiftCue p.1))).flatten
  (List.range' 1 shifted.length).zip shifted

/-- Decimal digit characters of `n`, most significant first (the rendering
of Python's `d` / `f` format specs). -/
def natDigits (n : ℕ) : List Char :=
  if n = 0 then ['0'] else ((Nat.digits 10 n).map Nat.digitChar).reverse

/-- Zero-pad a character string on the left to width `w` (the effect of the
`0`-flagged minimum field width in Python format specs). -/
def padLeftZeros (w : ℕ) (s : List Char) : List Char :=
  List.replicate (w - s.length) '0' ++ s

/-- The `.replace('.', ',')` of line 159, applied characterwise. -/
def dotComma (c : Char) : Char :=
  if c = '.' then ',' else c

/-- `_format_timestamp(seconds)` (lines 154-159) with the time value given
in integer milliseconds (`seconds = ms / 1000`; pydub segment times are
integer milliseconds, so the float arithmetic of the source is exact here):
`hours = int(seconds // 3600)`, `minutes = int((seconds % 3600) // 60)`,
`seconds = seconds % 60`, rendered as
`f"{hours:02d}:{minutes:02d}:{seconds:06.3f}".replace('.', ',')` — the
`%06.3f` spec prints the remaining seconds with exactly three decimals,
zero-padded to total width 6. -/
def formatTimestampMs (ms : ℕ) : List Char :=
  let hours := ms / 3600000
  let minutes := ms % 3600000 / 60000
  let secMs := ms % 60000
  let secStr :=
    padLeftZeros 6 (natDigits (secMs / 1000) ++ '.' :: padLeftZeros 3 (natDigits (secMs % 1000)))
  (padLeftZeros 2 (natDigits hours) ++ ':' :: padLeftZeros 2 (natDigits minutes)
      ++ ':' :: secStr).map dotComma

/-! ### Arithmetic helper lemmas -/

lemma nat_ceil_div_eq (S M : ℕ) (hM : 0 < M) :
    ⌈(S : ℚ) / (M : ℚ)⌉₊ = (S + M - 1) / M := by
  have hMq : (0 : ℚ) < (M : ℚ) := by exact_mod_cast hM
  apply le_antisymm
  · set q := (S + M - 1) / M with hq
    have h1 : S + M - 1 ≤ M * q + (M - 1) :=
      hq ▸ (Nat.div_le_iff_le_mul_add_pred hM).mp le_rfl
    have h2 : S ≤ M * q := by
      rw [Nat.add_sub_assoc hM] at h1
      exact Nat.le_of_add_le_add_right h1
    rw [Nat.ceil_le, div_le_iff₀ hMq]
    calc (S : ℚ) ≤ ((M * q : ℕ) : ℚ) := by exact_mod_cast h2
    _ = ((q : ℕ) : ℚ) * (M : ℚ) := by push_cast; ring
  · have h1 : (S : ℚ) ≤ (⌈(S : ℚ) / (M : ℚ)⌉₊ : ℚ) * M :=
      (div_le_iff₀ hMq).mp (Nat.le_ceil _)
    have h3 : S ≤ ⌈(S : ℚ) / (M : ℚ)⌉₊ * M := by exact_mod_cast h1
    rw [Nat.div_le_iff_le_mul_add_pred hM, Nat.mul_comm, Nat.add_sub_assoc hM]
    exact Nat.add_le_add_right h3 _

lemma numChunks_eq_ceil (S m : ℕ) :
    numChunks S m = ⌈(S : ℚ) / ((m * 1024 * 1024 : ℕ) : ℚ)⌉₊ := by
  unfold numChunks
  rw [div_div]
  congr 2
  push_cast
  ring

lemma numChunks_eval (S m : ℕ) :
    numChunks S m = (S + m * 1024 * 1024 - 1) / (m * 1024 * 1024) := by
  rcases Nat.eq_zero_or_pos m with hm | hm
  · subst hm
    unfold numChunks
    simp
  · rw [numChunks_eq_ceil, nat_ceil_div_eq _ _ (by positivity)]

lemma one_lt_numChunks (S m : ℕ) (hm : 0 < m) (hS : m * 1024 * 1024 < S) :
    1 < numChunks S m := by
  have hM : (0 : ℚ) < ((m * 1024 * 1024 : ℕ) : ℚ) := by
    have : 0 < m * 1024 * 1024 := by positivity
    exact_mod_cast this
  rw [numChunks_eq_ceil, Nat.lt_ceil]
  rw [show ((1 : ℕ) : ℚ) = 1 by norm_num, one_lt_div hM]
  exact_mod_cast hS

/-! ### Binary64 rounding lemmas -/

lemma roundNearestEven_bounds (s : ℚ) :
    s - 1 / 2 ≤ (roundNearestEven s : ℚ) ∧ (roundNearestEven s : ℚ) ≤ s + 1 / 2 := by
  have hfl := Int.floor_le s
  have hfu := Int.lt_floor_add_one s
  unfold roundNearestEven
  split_ifs with h1 h2 h3 <;> constructor <;> push_cast <;> linarith

lemma fl_bounds (q : ℚ) (hq : 0 < q) :
    q - q / 2 ^ 53 ≤ fl q ∧ fl q ≤ q + q / 2 ^ 53 := by
  rw [fl, if_neg (not_le.mpr hq)]
  set e : ℤ := Int.log 2 q - 52 with he
  obtain ⟨hb1, hb2⟩ := roundNearestEven_bounds (q / 2 ^ e)
  have h2e : (0 : ℚ) < (2 : ℚ) ^ e := zpow_pos (by norm_num) e
  have hlog : (2 : ℚ) ^ Int.log 2 q ≤ q := by
    have := Int.zpow_log_le_self (R := ℚ) (b := 2) (by norm_num) hq
    simpa using this
  have hslow : (2 : ℚ) ^ (52 : ℕ) ≤ q / 2 ^ e := by
    rw [le_div_iff₀ h2e]
    calc (2 : ℚ) ^ (52 : ℕ) * 2 ^ e = 2 ^ ((52 : ℤ) + e) := by
          rw [zpow_add₀ (by norm_num : (2 : ℚ) ≠ 0)]
          norm_num
    _ = 2 ^ Int.log 2 q := by
          congr 1
          omega
    _ ≤ q := hlog
  have hq52 : (2 : ℚ) ^ (52 : ℕ) * 2 ^ e ≤ q := (le_div_iff₀ h2e).mp hslow
  have hkey : (2 : ℚ) ^ e / 2 ≤ q / 2 ^ 53 := by
    rw [div_le_div_iff₀ (by norm_num) (by norm_num)]
    have h53 : (2 : ℚ) ^ (53 : ℕ) = 2 ^ (52 : ℕ) * 2 := by norm_num
    rw [h53]
    nlinarith [hq52]
  have hqe : q / 2 ^ e * 2 ^ e = q := div_mul_cancel₀ q (ne_of_gt h2e)
  constructor
  · have hmul := mul_le_mul_of_nonneg_right hb1 h2e.le
    have hexp : (q / 2 ^ e - 1 / 2) * 2 ^ e = q - 2 ^ e / 2 := by
      rw [sub_mul, hqe]
      ring
    rw [hexp] at hmul
    linarith
  · have hmul := mul_le_mul_of_nonneg_right hb2 h2e.le
    have hexp : (q / 2 ^ e + 1 / 2) * 2 ^ e = q + 2 ^ e / 2 := by
      rw [add_mul, hqe]
      ring
    rw [hexp] at hmul
    linarith

lemma fl_nonneg (q : ℚ) : 0 ≤ fl q := by
  rcases le_or_lt q 0 with hq | hq
  · rw [fl, if_pos hq]
  · have := (fl_bounds q hq).1
    have hlt : q / 2 ^ 53 < q := div_lt_self hq (by norm_num)
    linarith

lemma fl_pos (q : ℚ) (hq : 0 < q) : 0 < fl q := by
  have := (fl_bounds q hq).1
  have hlt : q / 2 ^ 53 < q := div_lt_self hq (by norm_num)
  linarith

lemma int_log_eq (q : ℚ) (l : ℤ) (hq : 0 < q) (h1 : (2 : ℚ) ^ l ≤ q)
    (h2 : q < (2 : ℚ) ^ (l + 1)) : Int.log 2 q = l := by
  have hcast : (((2 : ℕ) : ℚ)) = (2 : ℚ) := by norm_num
  have hub : Int.log 2 q < l + 1 := by
    apply (Int.lt_zpow_iff_log_lt (R := ℚ) (b := 2) (by norm_num) hq).mp
    rw [hcast]
    exact h2
  have hlb : l ≤ Int.log 2 q := by
    apply (Int.zpow_le_iff_le_log (R := ℚ) (b := 2) (by norm_num) hq).mp
    rw [hcast]
    exact h1
  omega

lemma fl_eq_round_down (q : ℚ) (l : ℤ) (mv : ℤ) (hq : 0 < q)
    (h1 : (2 : ℚ) ^ l ≤ q) (h2 : q < (2 : ℚ) ^ (l + 1))
    (hm1 : (mv : ℚ) ≤ q / 2 ^ (l - 52)) (hm2 : q / 2 ^ (l - 52) < (mv : ℚ) + 1 / 2) :
    fl q = (mv : ℚ) * 2 ^ (l - 52) := by
  have hlog := int_log_eq q l hq h1 h2
  rw [fl, if_neg (not_le.mpr hq), hlog]
  have hfloor : ⌊q / (2 : ℚ) ^ (l - 52)⌋ = mv := by
    rw [Int.floor_eq_iff]
    exact ⟨hm1, by linarith⟩
  have hrne : roundNearestEven (q / (2 : ℚ) ^ (l - 52)) = mv := by
    unfold roundNearestEven
    rw [hfloor, if_pos (by linarith)]
  rw [hrne]

/-! ### Claim theorems C3-C6 -/

/-- C3: for every normalized artifact of encoded byte size `S` and maximum
chunk size `M = chunkSizeMb * 1024 * 1024`, `split_audio` returns exactly
`ceil(S / M)` chunk file paths when `S > M`, and returns exactly one path —
with no split-export operation performed — when `S ≤ M`. -/
theorem c3_split_count (f : TmpFile) (S L m : ℕ) (hm : 0 < m) :
    (m * 1024 * 1024 < S →
      (split_audio f S L m).chunks.length = ⌈(S : ℚ) / ((m * 1024 * 1024 : ℕ) : ℚ)⌉₊ ∧
      (split_audio f S L m).chunks.length
        = (S + m * 1024 * 1024 - 1) / (m * 1024 * 1024)) ∧
    (S ≤ m * 1024 * 1024 →
      (split_audio f S L m).chunks = [f] ∧ (split_audio f S L m).exports = []) := by
  have hM : 0 < m * 1024 * 1024 := by positivity
  constructor
  · intro hS
    have h' : ¬ S ≤ m * 1024 * 1024 := not_le.mpr hS
    have hlen : (split_audio f S L m).chunks.length = numChunks S m := by
      simp [split_audio, h']
    refine ⟨?_, ?_⟩
    · rw [hlen, numChunks_eq_ceil]
    · rw [hlen, numChunks_eq_ceil, nat_ceil_div_eq _ _ hM]
  · intro hS
    simp [split_audio, hS]

/-- Witness for C3: with `m = 1` (so `M = 1048576` bytes), a file of
`2 * 1048576 + 1` bytes splits into `⌈S/M⌉ = 3` chunk paths, and a file of
`100` bytes yields the single input path with no export operation. -/
theorem c3_split_count_witness :
    ((split_audio TmpFile.norm (2 * 1024 * 1024 + 1) 11 1).chunks.length
        = (2 * 1024 * 1024 + 1 + 1 * 1024 * 1024 - 1) / (1 * 1024 * 1024)) ∧
    ((split_audio TmpFile.norm 100 11 1).chunks = [TmpFile.norm] ∧
      (split_audio TmpFile.norm 100 11 1).exports = []) :=
  ⟨((c3_split_count TmpFile.norm (2 * 1024 * 1024 + 1) 11 1 (by decide)).1
      (by decide)).2,
    (c3_split_count TmpFile.norm 100 11 1 (by decide)).2 (by decide)⟩

lemma window_x_bounds (L n i : ℕ) (hL0 : 0 < L) (hn : 0 < n) (hi1 : 1 ≤ i)
    (hin : i ≤ n) (hLq : (L : ℚ) < 2 ^ 50) :
    (i : ℚ) * ((L : ℚ) / (n : ℚ)) - 1 / 2 ≤ fl ((i : ℚ) * fl ((L : ℚ) / (n : ℚ))) ∧
    fl ((i : ℚ) * fl ((L : ℚ) / (n : ℚ))) ≤ (i : ℚ) * ((L : ℚ) / (n : ℚ)) + 1 / 2 := by
  have hq : (0 : ℚ) < (L : ℚ) / (n : ℚ) :=
    div_pos (by exact_mod_cast hL0) (by exact_mod_cast hn)
  obtain ⟨hd1, hd2⟩ := fl_bounds _ hq
  have hd0 : 0 < fl ((L : ℚ) / (n : ℚ)) := fl_pos _ hq
  have hipos : (0 : ℚ) < (i : ℚ) := by exact_mod_cast hi1
  have hy0 : (0 : ℚ) < (i : ℚ) * fl ((L : ℚ) / (n : ℚ)) := mul_pos hipos hd0
  obtain ⟨hx1, hx2⟩ := fl_bounds _ hy0
  have hiq : (i : ℚ) * ((L : ℚ) / (n : ℚ)) ≤ (L : ℚ) := by
    have hcast : (i : ℚ) ≤ (n : ℚ) := by exact_mod_cast hin
    calc (i : ℚ) * ((L : ℚ) / (n : ℚ)) ≤ (n : ℚ) * ((L : ℚ) / (n : ℚ)) :=
          mul_le_mul_of_nonneg_right hcast hq.le
    _ = (L : ℚ) := by
          field_simp
  have hyA : (i : ℚ) * fl ((L : ℚ) / (n : ℚ))
      ≤ (i : ℚ) * ((L : ℚ) / (n : ℚ)) + (i : ℚ) * ((L : ℚ) / (n : ℚ)) / 2 ^ 53 := by
    calc (i : ℚ) * fl ((L : ℚ) / (n : ℚ))
        ≤ (i : ℚ) * ((L : ℚ) / (n : ℚ) + (L : ℚ) / (n : ℚ) / 2 ^ 53) :=
          mul_le_mul_of_nonneg_left hd2 hipos.le
    _ = (i : ℚ) * ((L : ℚ) / (n : ℚ)) + (i : ℚ) * ((L : ℚ) / (n : ℚ)) / 2 ^ 53 := by
          ring
  have hyA' : (i : ℚ) * ((L : ℚ) / (n : ℚ)) - (i : ℚ) * ((L : ℚ) / (n : ℚ)) / 2 ^ 53
      ≤ (i : ℚ) * fl ((L : ℚ) / (n : ℚ)) := by
    calc (i : ℚ) * ((L : ℚ) / (n : ℚ)) - (i : ℚ) * ((L : ℚ) / (n : ℚ)) / 2 ^ 53
        = (i : ℚ) * ((L : ℚ) / (n : ℚ) - (L : ℚ) / (n : ℚ) / 2 ^ 53) := by ring
    _ ≤ (i : ℚ) * fl ((L : ℚ) / (n : ℚ)) := mul_le_mul_of_nonneg_left hd1 hipos.le
  have hdiv : (i : ℚ) * fl ((L : ℚ) / (n : ℚ)) / 2 ^ 53
      ≤ ((L : ℚ) + (L : ℚ) / 2 ^ 53) / 2 ^ 53 := by
    have hyL : (i : ℚ) * fl ((L : ℚ) / (n : ℚ)) ≤ (L : ℚ) + (L : ℚ) / 2 ^ 53 := by
      linarith
    linarith
  constructor
  · linarith
  · linarith

lemma window_boundary (L n i : ℕ) (hL0 : 0 < L) (hn : 0 < n) (hi1 : 1 ≤ i)
    (hin : i ≤ n) (hLb : L < 2 ^ 50) :
    i * L / n ≤ ⌊fl ((i : ℚ) * fl ((L : ℚ) / (n : ℚ)))⌋₊ + 1 ∧
    ⌊fl ((i : ℚ) * fl ((L : ℚ) / (n : ℚ)))⌋₊ ≤ i * L / n + 1 := by
  have hLq : (L : ℚ) < 2 ^ 50 := by exact_mod_cast hLb
  obtain ⟨h1, h2⟩ := window_x_bounds L n i hL0 hn hi1 hin hLq
  have hXnn : 0 ≤ fl ((i : ℚ) * fl ((L : ℚ) / (n : ℚ))) := fl_nonneg _
  have hynn : (0 : ℚ) ≤ (i : ℚ) * ((L : ℚ) / (n : ℚ)) := by positivity
  have hyfloor : ⌊(i : ℚ) * ((L : ℚ) / (n : ℚ))⌋₊ = i * L / n := by
    rw [show (i : ℚ) * ((L : ℚ) / (n : ℚ)) = ((i * L : ℕ) : ℚ) / ((n : ℕ) : ℚ) by
      push_cast
      ring]
    rw [Nat.floor_div_nat, Nat.floor_natCast]
  constructor
  · calc i * L / n = ⌊(i : ℚ) * ((L : ℚ) / (n : ℚ))⌋₊ := hyfloor.symm
    _ ≤ ⌊fl ((i : ℚ) * fl ((L : ℚ) / (n : ℚ))) + 1⌋₊ := Nat.floor_le_floor (by linarith)
    _ = ⌊fl ((i : ℚ) * fl ((L : ℚ) / (n : ℚ)))⌋₊ + 1 := Nat.floor_add_one hXnn
  · calc ⌊fl ((i : ℚ) * fl ((L : ℚ) / (n : ℚ)))⌋₊
        ≤ ⌊(i : ℚ) * ((L : ℚ) / (n : ℚ)) + 1⌋₊ := Nat.floor_le_floor (by linarith)
    _ = i * L / n + 1 := by rw [Nat.floor_add_one hynn, hyfloor]

lemma window_mono (L n i : ℕ) (hL0 : 0 < L) (hn : 0 < n) (hi : i < n)
    (hn52 : n ≤ 2 ^ 52) :
    (chunkWindow L n i).start ≤ (chunkWindow L n i).stop := by
  rcases Nat.eq_zero_or_pos i with hi0 | hi1
  · subst hi0
    simp only [chunkWindow, Nat.cast_zero, zero_mul]
    rw [fl, if_pos le_rfl]
    simp
  · simp only [chunkWindow]
    apply Nat.floor_le_floor
    have hq : (0 : ℚ) < (L : ℚ) / (n : ℚ) :=
      div_pos (by exact_mod_cast hL0) (by exact_mod_cast hn)
    have hd0 : 0 < fl ((L : ℚ) / (n : ℚ)) := fl_pos _ hq
    have hipos : (0 : ℚ) < (i : ℚ) := by exact_mod_cast hi1
    have hy0 : (0 : ℚ) < (i : ℚ) * fl ((L : ℚ) / (n : ℚ)) := mul_pos hipos hd0
    have hy0' : (0 : ℚ) < ((i : ℚ) + 1) * fl ((L : ℚ) / (n : ℚ)) := by positivity
    obtain ⟨_, hx2⟩ := fl_bounds _ hy0
    obtain ⟨hx1', _⟩ := fl_bounds _ hy0'
    have h2i : 2 * (i : ℚ) + 1 ≤ 2 ^ 53 := by
      have hi52 : (i : ℚ) + 1 ≤ 2 ^ 52 := by
        have : i + 1 ≤ 2 ^ 52 := by omega
        exact_mod_cast this
      linarith
    have hprod : 0 ≤ (2 ^ 53 - (2 * (i : ℚ) + 1)) * fl ((L : ℚ) / (n : ℚ)) :=
      mul_nonneg (by linarith) hd0.le
    have hexp : (2 ^ 53 - (2 * (i : ℚ) + 1)) * fl ((L : ℚ) / (n : ℚ))
        = 2 ^ 53 * fl ((L : ℚ) / (n : ℚ)) - 2 * ((i : ℚ) * fl ((L : ℚ) / (n : ℚ)))
          - fl ((L : ℚ) / (n : ℚ)) := by ring
    rw [hexp] at hprod
    have hQP : ((i : ℚ) + 1) * fl ((L : ℚ) / (n : ℚ))
        = (i : ℚ) * fl ((L : ℚ) / (n : ℚ)) + fl ((L : ℚ) / (n : ℚ)) := by ring
    linarith

/-- C4 counterexample: the claim says the windows together cover exactly the
source audio's full duration, with the last window absorbing any rounding
remainder; but with a normalized artifact of `86·20 MB + 1` bytes (87
chunks) over a source of 245109183 ms, Python's float window arithmetic
(`int(87 * (245109183 / 87))`) makes the last window stop at
245109182 = L − 1: the final millisecond is dropped and coverage is not
exact. -/
theorem c4_counterexample :
    numChunks (86 * 20 * 1024 * 1024 + 1) 20 = 87 ∧
    (chunkWindow 245109183 87 86).stop = 245109182 ∧
    (245109182 : ℕ) ≠ 245109183 := by
  refine ⟨?_, ?_, by decide⟩
  · rw [numChunks_eval]
  · have hd : fl ((245109183 : ℚ) / 87) = 6050206465139535 / 2 ^ 31 := by
      have h := fl_eq_round_down ((245109183 : ℚ) / 87) 21 6050206465139535
        (by norm_num) (by norm_num) (by norm_num) (by norm_num) (by norm_num)
      rw [h]
      push_cast
      norm_num
    have hx : fl (((86 : ℚ) + 1) * (6050206465139535 / 2 ^ 31))
        = 8224499413549055 / 2 ^ 25 := by
      have h87 : ((86 : ℚ) + 1) * (6050206465139535 / 2 ^ 31)
          = 526367962467139545 / 2 ^ 31 := by norm_num
      rw [h87]
      have h := fl_eq_round_down ((526367962467139545 : ℚ) / 2 ^ 31) 27
        8224499413549055 (by norm_num) (by norm_num) (by norm_num) (by norm_num)
        (by norm_num)
      rw [h]
      push_cast
      norm_num
    simp only [chunkWindow, Nat.cast_ofNat]
    rw [hd, hx]
    rw [show (8224499413549055 : ℚ) / 2 ^ 25
        = ((8224499413549055 : ℕ) : ℚ) / ((2 ^ 25 : ℕ) : ℚ) by norm_num]
    rw [Nat.floor_div_nat, Nat.floor_natCast]
    decide

/-- C4 as amended: for every split into `n > 1` chunks (duration under
`2^50` ms, chunk count at most `2^52`, well inside float range), the chunk
time windows are contiguous (window `i`'s end is literally window `i+1`'s
start, hence non-overlapping and ordered by index) and start at 0; every
interior boundary lies within 1 ms of the ideal boundary `⌊i·L/n⌋`, so the
windows are of equal length up to a few milliseconds of float rounding; and
the last window ends at `L` or at `L − 1` — because the boundaries are
computed with doubly rounded binary64 arithmetic, total coverage can fall
exactly one millisecond short of the source duration instead of being
exact. -/
theorem c4_window_invariants (f : TmpFile) (S L m : ℕ) (hm : 0 < m)
    (hS : m * 1024 * 1024 < S) (hL0 : 0 < L) (hLb : L < 2 ^ 50)
    (hn52 : numChunks S m ≤ 2 ^ 52) :
    1 < numChunks S m ∧
    (split_audio f S L m).exports.map Prod.fst
      = (List.range (numChunks S m)).map (chunkWindow L (numChunks S m)) ∧
    (chunkWindow L (numChunks S m) 0).start = 0 ∧
    (∀ i, (chunkWindow L (numChunks S m) i).stop
        = (chunkWindow L (numChunks S m) (i + 1)).start) ∧
    (∀ i, i < numChunks S m →
      (chunkWindow L (numChunks S m) i).start ≤ (chunkWindow L (numChunks S m) i).stop) ∧
    (∀ i, 1 ≤ i → i < numChunks S m →
      i * L / numChunks S m ≤ (chunkWindow L (numChunks S m) i).start + 1 ∧
      (chunkWindow L (numChunks S m) i).start ≤ i * L / numChunks S m + 1) ∧
    (L ≤ (chunkWindow L (numChunks S m) (numChunks S m - 1)).stop + 1 ∧
      (chunkWindow L (numChunks S m) (numChunks S m - 1)).stop ≤ L) := by
  have h1 : 1 < numChunks S m := one_lt_numChunks S m hm hS
  have hn : 0 < numChunks S m := by omega
  have h' : ¬ S ≤ m * 1024 * 1024 := not_le.mpr hS
  have hLq : (L : ℚ) < 2 ^ 50 := by exact_mod_cast hLb
  refine ⟨h1, ?_, ?_, ?_, ?_, ?_, ?_⟩
  · simp [split_audio, h']
  · simp [chunkWindow, fl]
  · intro i
    simp [chunkWindow]
  · intro i hi
    exact window_mono L (numChunks S m) i hL0 hn hi hn52
  · intro i hi1 hi2
    have := window_boundary L (numChunks S m) i hL0 hn hi1 (le_of_lt hi2) hLb
    simpa [chunkWindow] using this
  · have hcast : ((numChunks S m - 1 : ℕ) : ℚ) + 1 = ((numChunks S m : ℕ) : ℚ) := by
      rw [Nat.cast_sub (by omega)]
      ring
    have hstop : (chunkWindow L (numChunks S m) (numChunks S m - 1)).stop
        = ⌊fl ((numChunks S m : ℚ) * fl ((L : ℚ) / (numChunks S m : ℚ)))⌋₊ := by
      simp only [chunkWindow]
      rw [hcast]
    obtain ⟨hx1, hx2⟩ :=
      window_x_bounds L (numChunks S m) (numChunks S m) hL0 hn hn le_rfl hLq
    have hyL : (numChunks S m : ℚ) * ((L : ℚ) / (numChunks S m : ℚ)) = (L : ℚ) := by
      field_simp
    rw [hyL] at hx1 hx2
    have hXnn : 0 ≤ fl ((numChunks S m : ℚ) * fl ((L : ℚ) / (numChunks S m : ℚ))) :=
      fl_nonneg _
    constructor
    · rw [hstop]
      have hfloor1 : L ≤ ⌊fl ((numChunks S m : ℚ)
          * fl ((L : ℚ) / (numChunks S m : ℚ))) + 1⌋₊ := by
        apply Nat.le_floor
        linarith
      rwa [Nat.floor_add_one hXnn] at hfloor1
    · rw [hstop]
      have hlt : fl ((numChunks S m : ℚ) * fl ((L : ℚ) / (numChunks S m : ℚ)))
          < ((L + 1 : ℕ) : ℚ) := by
        push_cast
        linarith
      have := (Nat.floor_lt hXnn).mpr hlt
      omega

/-- Witness for C4 as amended: a `2·1 MB + 1`-byte artifact over an 11 ms
source splits into 3 windows; contiguity, ordering, the start at 0, the
interior-boundary bounds and the `L` or `L − 1` final stop all hold. -/
theorem c4_window_invariants_witness :
    1 < numChunks (2 * 1024 * 1024 + 1) 1 ∧
    (split_audio TmpFile.norm (2 * 1024 * 1024 + 1) 11 1).exports.map Prod.fst
      = (List.range (numChunks (2 * 1024 * 1024 + 1) 1)).map
          (chunkWindow 11 (numChunks (2 * 1024 * 1024 + 1) 1)) ∧
    (chunkWindow 11 (numChunks (2 * 1024 * 1024 + 1) 1) 0).start = 0 ∧
    (∀ i, (chunkWindow 11 (numChunks (2 * 1024 * 1024 + 1) 1) i).stop
        = (chunkWindow 11 (numChunks (2 * 1024 * 1024 + 1) 1) (i + 1)).start) ∧
    (∀ i, i < numChunks (2 * 1024 * 1024 + 1) 1 →
      (chunkWindow 11 (numChunks (2 * 1024 * 1024 + 1) 1) i).start
        ≤ (chunkWindow 11 (numChunks (2 * 1024 * 1024 + 1) 1) i).stop) ∧
    (∀ i, 1 ≤ i → i < numChunks (2 * 1024 * 1024 + 1) 1 →
      i * 11 / numChunks (2 * 1024 * 1024 + 1) 1
          ≤ (chunkWindow 11 (numChunks (2 * 1024 * 1024 + 1) 1) i).start + 1 ∧
      (chunkWindow 11 (numChunks (2 * 1024 * 1024 + 1) 1) i).start
          ≤ i * 11 / numChunks (2 * 1024 * 1024 + 1) 1 + 1) ∧
    (11 ≤ (chunkWindow 11 (numChunks (2 * 1024 * 1024 + 1) 1)
          (numChunks (2 * 1024 * 1024 + 1) 1 - 1)).stop + 1 ∧
      (chunkWindow 11 (numChunks (2 * 1024 * 1024 + 1) 1)
          (numChunks (2 * 1024 * 1024 + 1) 1 - 1)).stop ≤ 11) :=
  c4_window_invariants TmpFile.norm (2 * 1024 * 1024 + 1) 11 1 (by decide) (by decide)
    (by decide) (by norm_num)
    (by rw [numChunks_eval]; norm_num)

/-- C5 counterexample: the claim says every chunk is exported with the same
codec **and bitrate** settings as normalization; but a concrete split's
export settings carry no bitrate argument, while the normalizer's export
passes `bitrate='32k'`, so the settings differ. -/
theorem c5_counterexample :
    (split_audio TmpFile.norm (2 * 1024 * 1024 + 1) 11 1).exports.map Prod.snd
      = [chunkExportSettings, chunkExportSettings, chunkExportSettings] ∧
    chunkExportSettings.bitrate = none ∧
    optimizeExportSettings.bitrate = some "32k" ∧
    chunkExportSettings ≠ optimizeExportSettings := by
  refine ⟨?_, rfl, rfl, by decide⟩
  simp only [split_audio, numChunks_eval]
  decide

/-- C5 as amended: every chunk produced by `split_audio` is exported with
the same container format, codec and ffmpeg parameters (Ogg Vorbis, mono,
16 kHz, quality 4) as normalization, but — unlike the normalizer, which
passes an explicit `32k` bitrate — the chunk export passes no bitrate
setting. -/
theorem c5_chunk_export_settings (f : TmpFile) (S L m : ℕ) :
    (split_audio f S L m).exports.map Prod.snd
      = List.replicate (split_audio f S L m).exports.length chunkExportSettings ∧
    chunkExportSettings.format = optimizeExportSettings.format ∧
    chunkExportSettings.codec = optimizeExportSettings.codec ∧
    chunkExportSettings.parameters = optimizeExportSettings.parameters ∧
    chunkExportSettings.bitrate = none ∧
    optimizeExportSettings.bitrate = some "32k" := by
  refine ⟨?_, rfl, rfl, rfl, rfl, rfl⟩
  unfold split_audio
  split
  · rfl
  · simp [List.map_map, Function.comp_def, List.map_const']

/-- C6: a transcription request whose language option is the `'auto'`
sentinel has its language parameter omitted (sent as `None`) — both by the
GUI's pre-mapping and by `transcribe`'s own guard — and when subtitle mode
is off the request asks for the non-subtitle `'json'` response format. -/
theorem c6_auto_language_and_plain_text :
    (∀ model_name create_srt prompt_text,
      (buildRequest model_name create_srt prompt_text (guiLanguage "auto")).language
        = none) ∧
    (∀ model_name create_srt prompt_text,
      (buildRequest model_name create_srt prompt_text (some "auto")).language = none) ∧
    (∀ model_name prompt_text lang,
      (buildRequest model_name false prompt_text lang).response_format = "json" ∧
      (buildRequest model_name false prompt_text lang).response_format ≠ "srt") := by
  refine ⟨?_, ?_, ?_⟩
  · intro model_name create_srt prompt_text
    simp [buildRequest, guiLanguage]
  · intro model_name create_srt prompt_text
    simp [buildRequest]
  · intro model_name prompt_text lang
    refine ⟨rfl, ?_⟩
    intro h
    simp [buildRequest] at h

/-! ### Loop lemmas for `start_transcription` -/

/-- Left fold of `List.erase`: the disk contents after unlinking `files`
in order. -/
def eraseAll (disk files : List TmpFile) : List TmpFile :=
  files.foldl List.erase disk

lemma eraseAll_append (pre mid post : List TmpFile) (h : ∀ x ∈ mid, x ∉ pre) :
    eraseAll (pre ++ mid ++ post) mid = pre ++ post := by
  induction mid generalizing post with
  | nil => simp [eraseAll]
  | cons m mid' ih =>
    have hm : m ∉ pre := h m (by simp)
    show eraseAll ((pre ++ m :: mid' ++ post).erase m) mid' = pre ++ post
    rw [show pre ++ m :: mid' ++ post = pre ++ m :: (mid' ++ post) by simp,
      List.erase_append_right _ hm, List.erase_cons_head,
      show pre ++ (mid' ++ post) = pre ++ mid' ++ post by simp]
    exact ih post (fun x hx => h x (List.mem_cons_of_mem m hx))

lemma chunkLoop_success (b : Bool) (api : ℕ → Option String) :
    ∀ (cs : List TmpFile) (i : ℕ) (disk unl : List TmpFile),
      (∀ j, j < cs.length → api (i + j) ≠ none) →
      (chunkLoop b api i cs disk unl).texts
          = (List.range cs.length).map (fun j => (api (i + j)).getD "") ∧
      (chunkLoop b api i cs disk unl).srts
          = (if b then
              ((List.range cs.length).map (fun j => (api (i + j)).getD "")).filter
                (fun s => !(s == ""))
            else []) ∧
      (chunkLoop b api i cs disk unl).disk = eraseAll disk cs ∧
      (chunkLoop b api i cs disk unl).unlinks = unl ++ cs ∧
      (chunkLoop b api i cs disk unl).ok = true ∧
      (chunkLoop b api i cs disk unl).calls = cs.length := by
  intro cs
  induction cs with
  | nil =>
    intro i disk unl _
    cases b <;> simp [chunkLoop, eraseAll]
  | cons c rest ih =>
    intro i disk unl h
    have h0 : api i ≠ none := by
      have := h 0 (by simp)
      simpa using this
    obtain ⟨t, ht⟩ : ∃ t, api i = some t := Option.ne_none_iff_exists'.mp h0
    have hrest : ∀ j, j < rest.length → api (i + 1 + j) ≠ none := by
      intro j hj
      have := h (j + 1) (by simpa using Nat.succ_lt_succ hj)
      rwa [show i + (j + 1) = i + 1 + j by omega] at this
    have hih := ih (i + 1) (disk.erase c) (unl ++ [c]) hrest
    have htexts : (List.range (c :: rest).length).map (fun j => (api (i + j)).getD "")
        = t :: (List.range rest.length).map (fun j => (api (i + 1 + j)).getD "") := by
      rw [List.length_cons, List.range_succ_eq_map, List.map_cons, List.map_map]
      refine List.cons_eq_cons.mpr ⟨by simp [ht], List.map_congr_left (fun j _ => ?_)⟩
      simp only [Function.comp_apply, Nat.succ_eq_add_one]
      rw [show i + (j + 1) = i + 1 + j by omega]
    cases b with
    | false =>
      simp only [chunkLoop, ht, transcribe_result]
      refine ⟨?_, ?_, ?_, ?_, ?_, ?_⟩
      · rw [htexts]
        simp [hih.1]
      · simpa using hih.2.1
      · simpa [eraseAll] using hih.2.2.1
      · simpa using hih.2.2.2.1
      · simpa using hih.2.2.2.2.1
      · simpa using hih.2.2.2.2.2
    | true =>
      simp only [chunkLoop, ht, transcribe_result]
      refine ⟨?_, ?_, ?_, ?_, ?_, ?_⟩
      · rw [htexts]
        simp [hih.1]
      · rw [htexts, List.filter_cons]
        have hsrts := hih.2.1
        simp only [if_pos rfl] at hsrts
        by_cases he : t = "" <;> simp [he, hsrts]
      · simpa [eraseAll] using hih.2.2.1
      · simpa using hih.2.2.2.1
      · simpa using hih.2.2.2.2.1
      · simpa using hih.2.2.2.2.2

lemma chunkLoop_failure (b : Bool) (api : ℕ → Option String) :
    ∀ (cs : List TmpFile) (k i : ℕ) (disk unl : List TmpFile),
      k < cs.length → (∀ j, j < k → api (i + j) ≠ none) → api (i + k) = none →
      (chunkLoop b api i cs disk unl).disk = eraseAll disk (cs.take k) ∧
      (chunkLoop b api i cs disk unl).unlinks = unl ++ cs.take k ∧
      (chunkLoop b api i cs disk unl).ok = false ∧
      (chunkLoop b api i cs disk unl).calls = k + 1 := by
  intro cs
  induction cs with
  | nil =>
    intro k i disk unl hk
    simp at hk
  | cons c rest ih =>
    intro k i disk unl hk hgood hfail
    cases k with
    | zero =>
      have h0 : api i = none := by simpa using hfail
      simp [chunkLoop, h0, eraseAll]
    | succ k' =>
      have h0 : api i ≠ none := by
        have := hgood 0 (by omega)
        simpa using this
      obtain ⟨t, ht⟩ : ∃ t, api i = some t := Option.ne_none_iff_exists'.mp h0
      have hgood' : ∀ j, j < k' → api (i + 1 + j) ≠ none := by
        intro j hj
        have := hgood (j + 1) (by omega)
        rwa [show i + (j + 1) = i + 1 + j by omega] at this
      have hfail' : api (i + 1 + k') = none := by
        rwa [show i + 1 + k' = i + (k' + 1) by omega]
      have hrest := ih k' (i + 1) (disk.erase c) (unl ++ [c])
        (by simpa using Nat.lt_of_succ_lt_succ hk) hgood' hfail'
      simp only [chunkLoop, ht]
      refine ⟨?_, ?_, ?_, ?_⟩
      · rw [hrest.1]
        simp [eraseAll]
      · rw [hrest.2.1]
        simp
      · exact hrest.2.2.1
      · rw [hrest.2.2.2]

lemma run_success (b : Bool) (api : ℕ → Option String) (S L m : ℕ)
    (h : ∀ j, j < (split_audio TmpFile.norm S L m).chunks.length → api j ≠ none) :
    (start_transcription b api S L m).finalDisk = [] ∧
    (start_transcription b api S L m).calls
      = (split_audio TmpFile.norm S L m).chunks.length ∧
    (start_transcription b api S L m).displayedText
      = some (String.intercalate "\n\n"
          ((List.range (split_audio TmpFile.norm S L m).chunks.length).map
            (fun j => (api j).getD ""))) ∧
    (start_transcription b api S L m).srtCombined
      = (if b = true ∧
            ((List.range (split_audio TmpFile.norm S L m).chunks.length).map
              (fun j => (api j).getD "")).filter (fun s => !(s == "")) ≠ []
        then some (((List.range (split_audio TmpFile.norm S L m).chunks.length).map
              (fun j => (api j).getD "")).filter (fun s => !(s == "")))
        else none) := by
  have hmap : ∀ n : ℕ, (List.range n).map (fun j => (api (0 + j)).getD "")
      = (List.range n).map (fun j => (api j).getD "") := by
    intro n
    exact List.map_congr_left (fun j _ => by rw [Nat.zero_add])
  have h0 : ∀ j, j < (split_audio TmpFile.norm S L m).chunks.length →
      api (0 + j) ≠ none := by
    intro j hj
    rw [Nat.zero_add]
    exact h j hj
  obtain ⟨hT, hSr, hD, hU, hOk, hC⟩ :=
    chunkLoop_success b api (split_audio TmpFile.norm S L m).chunks 0
      (TmpFile.norm :: (split_audio TmpFile.norm S L m).created) [] h0
  rw [hmap] at hT
  rw [hmap] at hSr
  refine ⟨?_, ?_, ?_, ?_⟩
  · -- the final disk is empty
    simp only [start_transcription, hOk, if_true, hD]
    by_cases hS' : S ≤ m * 1024 * 1024
    · have hsplit : split_audio TmpFile.norm S L m
          = ⟨[TmpFile.norm], [], []⟩ := by simp [split_audio, hS']
      rw [hsplit]
      simp [eraseAll]
    · have hsplit : split_audio TmpFile.norm S L m
          = ⟨(List.range (numChunks S m)).map TmpFile.chunk,
             (List.range (numChunks S m)).map TmpFile.chunk,
             (List.range (numChunks S m)).map
               (fun i => (chunkWindow L (numChunks S m) i, chunkExportSettings))⟩ := by
        simp [split_audio, hS']
      rw [hsplit]
      show (if TmpFile.norm ∈
              eraseAll (TmpFile.norm :: (List.range (numChunks S m)).map TmpFile.chunk)
                ((List.range (numChunks S m)).map TmpFile.chunk)
            then _ else _ : List TmpFile × List TmpFile).1 = []
      rw [show TmpFile.norm :: (List.range (numChunks S m)).map TmpFile.chunk
          = [TmpFile.norm] ++ (List.range (numChunks S m)).map TmpFile.chunk ++ [] by simp]
      rw [eraseAll_append _ _ _ (by simp)]
      simp
  · simp only [start_transcription, hOk, if_true, hC]
  · simp only [start_transcription, hOk, if_true, hT]
  · simp only [start_transcription, hOk, if_true, hSr]
    cases b <;> simp

/-! ### Claim theorems C2, C8, C9, C10 -/

/-- C2 counterexample: in a run that splits into 3 chunks where chunk 2
(index 1) fails at the network call, the run ends with the chunk files of
chunks 2 and 3 still on disk — not zero temporary files as claimed (only
chunk 1's file and the normalized artifact were deleted). -/
theorem c2_counterexample :
    (start_transcription false (fun i => if i = 1 then none else some "x")
        (2 * 1024 * 1024 + 1) 6000 1).finalDisk
      = [TmpFile.chunk 1, TmpFile.chunk 2] ∧
    [TmpFile.chunk 1, TmpFile.chunk 2] ≠ ([] : List TmpFile) := by
  constructor
  · simp only [start_transcription, split_audio, numChunks_eval]
    decide
  · decide

/-- C2 as amended: after a run in which every chunk transcription succeeded,
zero temporary files remain on disk; but when transcription of chunk `k+1`
of `n` fails, only the normalized artifact and the chunk files already
consumed (chunks `1..k`) have been deleted — the failing chunk's file and
all later chunk files remain on disk. -/
theorem c2_cleanup (b : Bool) (api : ℕ → Option String) (S L m : ℕ) :
    ((∀ j, j < (split_audio TmpFile.norm S L m).chunks.length → api j ≠ none) →
      (start_transcription b api S L m).finalDisk = []) ∧
    (∀ k, m * 1024 * 1024 < S →
      k < (split_audio TmpFile.norm S L m).chunks.length →
      (∀ j, j < k → api j ≠ none) → api k = none →
      (start_transcription b api S L m).finalDisk
        = ((List.range (numChunks S m)).map TmpFile.chunk).drop k) := by
  constructor
  · intro h
    exact (run_success b api S L m h).1
  · intro k hS hk hgood hfail
    have h0good : ∀ j, j < k → api (0 + j) ≠ none := by
      intro j hj
      rw [Nat.zero_add]
      exact hgood j hj
    have h0fail : api (0 + k) = none := by rwa [Nat.zero_add]
    obtain ⟨hD, hU, hOk, hC⟩ :=
      chunkLoop_failure b api (split_audio TmpFile.norm S L m).chunks k 0
        (TmpFile.norm :: (split_audio TmpFile.norm S L m).created) [] hk h0good h0fail
    have hsplit : split_audio TmpFile.norm S L m
        = ⟨(List.range (numChunks S m)).map TmpFile.chunk,
           (List.range (numChunks S m)).map TmpFile.chunk,
           (List.range (numChunks S m)).map
             (fun i => (chunkWindow L (numChunks S m) i, chunkExportSettings))⟩ := by
      simp [split_audio, not_le.mpr hS]
    have key : eraseAll (TmpFile.norm :: (List.range (numChunks S m)).map TmpFile.chunk)
        (((List.range (numChunks S m)).map TmpFile.chunk).take k)
          = TmpFile.norm :: ((List.range (numChunks S m)).map TmpFile.chunk).drop k := by
      rw [show TmpFile.norm :: (List.range (numChunks S m)).map TmpFile.chunk
            = [TmpFile.norm] ++ ((List.range (numChunks S m)).map TmpFile.chunk).take k
                ++ ((List.range (numChunks S m)).map TmpFile.chunk).drop k by
          simp [List.take_append_drop]]
      rw [eraseAll_append _ _ _ ?_]
      · simp
      · intro x hx
        have hx' := List.take_subset _ _ hx
        simp only [List.mem_map] at hx'
        obtain ⟨j, _, rfl⟩ := hx'
        simp
    rw [hsplit] at hD hOk
    dsimp only at hD hOk
    simp only [start_transcription, hsplit]
    simp [hOk, hD, key]

/-- Witness for C2 as amended: an all-success 3-chunk run ends with an empty
disk, and the run failing at chunk 2 of 3 ends with exactly the chunk files
from index 1 onward remaining. -/
theorem c2_cleanup_witness :
    (start_transcription false (fun _ => some "x")
        (2 * 1024 * 1024 + 1) 6000 1).finalDisk = [] ∧
    (start_transcription false (fun i => if i = 1 then none else some "y")
        (2 * 1024 * 1024 + 1) 6000 1).finalDisk
      = ((List.range (numChunks (2 * 1024 * 1024 + 1) 1)).map TmpFile.chunk).drop 1 :=
  ⟨(c2_cleanup false (fun _ => some "x") (2 * 1024 * 1024 + 1) 6000 1).1
      (fun j _ => by simp),
   (c2_cleanup false (fun i => if i = 1 then none else some "y")
        (2 * 1024 * 1024 + 1) 6000 1).2 1 (by decide)
      (by simp only [split_audio, numChunks_eval]; decide)
      (fun j hj => by interval_cases j; simp)
      (by simp)⟩

/-- C8: if transcription of chunk `k+1` fails (after the first `k` chunks
succeeded), the run as a whole fails: exactly `k + 1` transcription calls
are made (so no chunk after the failing one is transcribed), no combined
text is displayed, and no combined subtitle document is produced. -/
theorem c8_chunk_failure_aborts_run (b : Bool) (api : ℕ → Option String)
    (S L m k : ℕ) (hk : k < (split_audio TmpFile.norm S L m).chunks.length)
    (hgood : ∀ j, j < k → api j ≠ none) (hfail : api k = none) :
    (start_transcription b api S L m).displayedText = none ∧
    (start_transcription b api S L m).srtCombined = none ∧
    (start_transcription b api S L m).calls = k + 1 := by
  have h0good : ∀ j, j < k → api (0 + j) ≠ none := by
    intro j hj
    rw [Nat.zero_add]
    exact hgood j hj
  have h0fail : api (0 + k) = none := by rwa [Nat.zero_add]
  obtain ⟨hD, hU, hOk, hC⟩ :=
    chunkLoop_failure b api (split_audio TmpFile.norm S L m).chunks k 0
      (TmpFile.norm :: (split_audio TmpFile.norm S L m).created) [] hk h0good h0fail
  refine ⟨?_, ?_, ?_⟩ <;> simp [start_transcription, hOk, hC]

/-- Witness for C8: subtitle mode on, 3 chunks, chunk 2 (index 1) fails:
2 calls were made, nothing is displayed, no subtitle document exists. -/
theorem c8_chunk_failure_aborts_run_witness :
    (start_transcription true (fun i => if i = 1 then none else some "z")
        (2 * 1024 * 1024 + 1) 6000 1).displayedText = none ∧
    (start_transcription true (fun i => if i = 1 then none else some "z")
        (2 * 1024 * 1024 + 1) 6000 1).srtCombined = none ∧
    (start_transcription true (fun i => if i = 1 then none else some "z")
        (2 * 1024 * 1024 + 1) 6000 1).calls = 1 + 1 :=
  c8_chunk_failure_aborts_run true (fun i => if i = 1 then none else some "z")
    (2 * 1024 * 1024 + 1) 6000 1 1
    (by simp only [split_audio, numChunks_eval]; decide)
    (fun j hj => by interval_cases j; simp)
    (by simp)

/-- C9 (implicit): with subtitle mode on, `transcribe` returns the identical
transcript value for both the plain-text and the subtitle component; hence
in a fully successful subtitle run the combined plain-text document is built
from exactly the same SRT part strings that are handed to the subtitle
aggregation step. -/
theorem c9_text_is_srt (api : ℕ → Option String) (S L m : ℕ)
    (hn : 0 < (split_audio TmpFile.norm S L m).chunks.length)
    (h : ∀ j, j < (split_audio TmpFile.norm S L m).chunks.length →
        api j ≠ none ∧ api j ≠ some "") :
    (∀ t, transcribe_result true t = (t, some t)) ∧
    (start_transcription true api S L m).displayedText
      = some (String.intercalate "\n\n"
          ((List.range (split_audio TmpFile.norm S L m).chunks.length).map
            (fun j => (api j).getD ""))) ∧
    (start_transcription true api S L m).srtCombined
      = some ((List.range (split_audio TmpFile.norm S L m).chunks.length).map
          (fun j => (api j).getD "")) := by
  have hrun := run_success true api S L m (fun j hj => (h j hj).1)
  have hfilter : ((List.range (split_audio TmpFile.norm S L m).chunks.length).map
      (fun j => (api j).getD "")).filter (fun s => !(s == ""))
        = (List.range (split_audio TmpFile.norm S L m).chunks.length).map
            (fun j => (api j).getD "") := by
    apply List.filter_eq_self.mpr
    intro s hs
    simp only [List.mem_map, List.mem_range] at hs
    obtain ⟨j, hj, rfl⟩ := hs
    obtain ⟨t, ht⟩ : ∃ t, api j = some t :=
      Option.ne_none_iff_exists'.mp (h j hj).1
    have hne : t ≠ "" := by
      intro hcontra
      exact (h j hj).2 (by rw [ht, hcontra])
    simp [ht, hne]
  refine ⟨fun t => rfl, hrun.2.2.1, ?_⟩
  rw [hrun.2.2.2, hfilter]
  have hne : (List.range (split_audio TmpFile.norm S L m).chunks.length).map
      (fun j => (api j).getD "") ≠ [] := by
    apply List.ne_nil_of_length_pos
    simpa using hn
  simp [hne]

/-- Witness for C9: a single-chunk subtitle run with transcript `"s"`
displays `"s"` as the text and hands `["s"]` to the aggregation step. -/
theorem c9_text_is_srt_witness :
    (∀ t, transcribe_result true t = (t, some t)) ∧
    (start_transcription true (fun _ => some "s") 100 6000 1).displayedText
      = some (String.intercalate "\n\n"
          ((List.range (split_audio TmpFile.norm 100 6000 1).chunks.length).map
            (fun j => ((fun _ : ℕ => some "s") j).getD ""))) ∧
    (start_transcription true (fun _ => some "s") 100 6000 1).srtCombined
      = some ((List.range (split_audio TmpFile.norm 100 6000 1).chunks.length).map
          (fun j => ((fun _ : ℕ => some "s") j).getD "")) :=
  c9_text_is_srt (fun _ => some "s") 100 6000 1
    (by simp only [split_audio, numChunks_eval]; decide)
    (fun j _ => ⟨by simp, by simp⟩)

/-- C10 (implicit): when the normalized artifact is at or under the chunk
limit, `split_audio` returns the artifact's own path as the single chunk;
the per-chunk cleanup then deletes the normalized artifact itself, and the
final cleanup's existence check prevents a second deletion attempt on the
success path: the run performs exactly one unlink of the artifact and ends
with an empty disk. -/
theorem c10_alias_single_unlink (b : Bool) (api : ℕ → Option String)
    (S L m : ℕ) (hS : S ≤ m * 1024 * 1024) (t : String) (ht : api 0 = some t) :
    (split_audio TmpFile.norm S L m).chunks = [TmpFile.norm] ∧
    (start_transcription b api S L m).unlinks = [TmpFile.norm] ∧
    (start_transcription b api S L m).finalDisk = [] ∧
    (start_transcription b api S L m).unlinks.count TmpFile.norm = 1 := by
  have hsplit : split_audio TmpFile.norm S L m = ⟨[TmpFile.norm], [], []⟩ := by
    simp [split_audio, hS]
  have h0 : ∀ j, j < ([TmpFile.norm] : List TmpFile).length → api (0 + j) ≠ none := by
    intro j hj
    have hj0 : j = 0 := by simpa using hj
    subst hj0
    simp [ht]
  obtain ⟨hT, hSr, hD, hU, hOk, hC⟩ :=
    chunkLoop_success b api [TmpFile.norm] 0 (TmpFile.norm :: ([] : List TmpFile)) [] h0
  simp only [eraseAll, List.foldl_cons, List.foldl_nil, List.erase_cons_head] at hD
  simp only [List.nil_append] at hU
  have hchunks : (split_audio TmpFile.norm S L m).chunks = [TmpFile.norm] := by
    rw [hsplit]
  have hcreated : (split_audio TmpFile.norm S L m).created = [] := by
    rw [hsplit]
  refine ⟨hchunks, ?_, ?_, ?_⟩
  · simp only [start_transcription, hchunks, hcreated, hOk, if_true, hD, hU]
    simp
  · simp only [start_transcription, hchunks, hcreated, hOk, if_true, hD, hU]
    simp
  · simp only [start_transcription, hchunks, hcreated, hOk, if_true, hD, hU]
    simp

/-- Witness for C10: a 100-byte artifact with a 1 MB limit: the single chunk
is the artifact path, it is unlinked exactly once, and the disk ends empty. -/
theorem c10_alias_single_unlink_witness :
    (split_audio TmpFile.norm 100 6000 1).chunks = [TmpFile.norm] ∧
    (start_transcription false (fun _ => some "w") 100 6000 1).unlinks
      = [TmpFile.norm] ∧
    (start_transcription false (fun _ => some "w") 100 6000 1).finalDisk = [] ∧
    (start_transcription false (fun _ => some "w") 100 6000 1).unlinks.count
      TmpFile.norm = 1 :=
  c10_alias_single_unlink false (fun _ => some "w") 100 6000 1 (by decide) "w" rfl

/-! ### Claim theorems C1 -/

/-- C1 counterexample: shifting each chunk's cues by that chunk's start
offset and renumbering does **not** guarantee monotone combined start
offsets from intra-chunk monotonicity alone: two chunks whose cue lists are
each trivially monotone, where chunk 1 (offset 0) carries a cue starting at
2000 ms while chunk 2's offset is only 1000 ms, combine to start offsets
`2000, 1000` — decreasing. -/
theorem c1_counterexample :
    (∀ p ∈ [((0 : ℕ), [Cue.mk 2000 2500 "a"]), ((1000 : ℕ), [Cue.mk 0 500 "b"])],
        List.Chain' (fun a b : Cue => a.start ≤ b.start) p.2) ∧
    ¬ List.Chain' (fun a b : ℕ × Cue => a.2.start ≤ b.2.start)
        (combine_srt
          [((0 : ℕ), [Cue.mk 2000 2500 "a"]), ((1000 : ℕ), [Cue.mk 0 500 "b"])]) := by
  constructor
  · intro p hp
    fin_cases hp <;> simp
  · have hc : combine_srt
        [((0 : ℕ), [Cue.mk 2000 2500 "a"]), ((1000 : ℕ), [Cue.mk 0 500 "b"])]
          = [(1, Cue.mk 2000 2500 "a"), (2, Cue.mk 1000 1500 "b")] := rfl
    rw [hc]
    simp [List.chain'_cons]

/-- C1 as amended: the aggregation step shifts every cue of chunk `i` by
that chunk's start offset and renumbers with a single running counter, so
output cue indices are the contiguous sequence `1..totalCues`; and the
combined cue start offsets are monotonically non-decreasing whenever each
chunk's own cue start times are monotone **and each chunk's cues start
within that chunk's span of the timeline** (no cue of chunk `i` starts after
chunk `i+1`'s start offset), each chunk contributing at least one cue. -/
theorem c1_combine_monotone (parts : List (ℕ × List Cue))
    (hne : ∀ p ∈ parts, p.2 ≠ [])
    (hmono : ∀ p ∈ parts, List.Chain' (fun a b : Cue => a.start ≤ b.start) p.2)
    (hspan : List.Chain' (fun p q => ∀ c ∈ p.2, p.1 + c.start ≤ q.1) parts) :
    (combine_srt parts).map Prod.fst
      = List.range' 1 ((parts.map (fun p => p.2.length)).sum) ∧
    List.Chain' (fun a b : ℕ × Cue => a.2.start ≤ b.2.start) (combine_srt parts) := by
  have hlen : ((parts.map (fun p => p.2.map (shiftCue p.1))).flatten).length
      = (parts.map (fun p => p.2.length)).sum := by
    rw [List.length_flatten, List.map_map]
    congr 1
    exact List.map_congr_left (fun p _ => by simp)
  constructor
  · simp only [combine_srt]
    rw [List.map_fst_zip _ _ (by rw [List.length_range'])]
    rw [hlen]
  · have hchain : List.Chain' (fun a b : Cue => a.start ≤ b.start)
        ((parts.map (fun p => p.2.map (shiftCue p.1))).flatten) := by
      rw [List.chain'_flatten ?_]
      · constructor
        · intro l hl
          simp only [List.mem_map] at hl
          obtain ⟨p, hp, rfl⟩ := hl
          rw [List.chain'_map]
          exact (hmono p hp).imp (fun a b hab => by
            simp only [shiftCue]
            omega)
        · rw [List.chain'_map]
          refine hspan.imp ?_
          intro p q hpq x hx y hy
          have hx' := List.mem_of_mem_getLast? hx
          have hy' := List.mem_of_mem_head? hy
          simp only [List.mem_map] at hx' hy'
          obtain ⟨c, hc, rfl⟩ := hx'
          obtain ⟨d, hd, rfl⟩ := hy'
          have h1 : p.1 + c.start ≤ q.1 := hpq c hc
          simp only [shiftCue]
          omega
      · intro hcontra
        simp only [List.mem_map, List.map_eq_nil_iff] at hcontra
        obtain ⟨p, hp, hp2⟩ := hcontra
        exact hne p hp hp2
    have hmapsnd : (combine_srt parts).map Prod.snd
        = (parts.map (fun p => p.2.map (shiftCue p.1))).flatten := by
      simp only [combine_srt]
      exact List.map_snd_zip _ _ (by rw [List.length_range'])
    rw [← hmapsnd] at hchain
    exact (List.chain'_map (Prod.snd : ℕ × Cue → Cue)).mp hchain

/-- Witness for C1 as amended: two chunks at offsets 0 and 1000 ms whose
cues are monotone and lie within their chunk spans combine to indices
`[1, 2, 3]` with monotone start offsets `0, 600, 1000`. -/
theorem c1_combine_monotone_witness :
    (combine_srt [((0 : ℕ), [Cue.mk 0 500 "a", Cue.mk 600 900 "a"]),
        ((1000 : ℕ), [Cue.mk 0 400 "b"])]).map Prod.fst
      = List.range' 1
          (([((0 : ℕ), [Cue.mk 0 500 "a", Cue.mk 600 900 "a"]),
              ((1000 : ℕ), [Cue.mk 0 400 "b"])].map (fun p => p.2.length)).sum) ∧
    List.Chain' (fun a b : ℕ × Cue => a.2.start ≤ b.2.start)
      (combine_srt [((0 : ℕ), [Cue.mk 0 500 "a", Cue.mk 600 900 "a"]),
        ((1000 : ℕ), [Cue.mk 0 400 "b"])]) :=
  c1_combine_monotone
    [((0 : ℕ), [Cue.mk 0 500 "a", Cue.mk 600 900 "a"]),
      ((1000 : ℕ), [Cue.mk 0 400 "b"])]
    (by decide)
    (by intro p hp; fin_cases hp <;> simp [List.chain'_cons])
    (by simp [List.chain'_cons])

/-! ### Timestamp-formatter lemmas and claim theorem C7 -/

lemma digitChar_fixed {d : ℕ} (hd : d < 10) :
    dotComma (Nat.digitChar d) = Nat.digitChar d := by
  interval_cases d <;> decide

lemma dotComma_natDigits (n : ℕ) : (natDigits n).map dotComma = natDigits n := by
  unfold natDigits
  split
  · decide
  · rename_i h0
    rw [List.map_reverse, List.map_map]
    congr 1
    apply List.map_congr_left
    intro d hd
    simp only [Function.comp_apply]
    exact digitChar_fixed (Nat.digits_lt_base (by norm_num) hd)

lemma natDigits_len_le {k n : ℕ} (hk : 0 < k) (hn : n < 10 ^ k) :
    (natDigits n).length ≤ k := by
  unfold natDigits
  split
  · simpa using hk
  · rename_i h0
    simp only [List.length_reverse, List.length_map]
    rw [Nat.digits_len 10 n (by norm_num) h0]
    have hlog : Nat.log 10 n < k := Nat.log_lt_of_lt_pow h0 hn
    omega

lemma padLeftZeros_length (w : ℕ) (s : List Char) :
    (padLeftZeros w s).length = max w s.length := by
  unfold padLeftZeros
  simp only [List.length_append, List.length_replicate]
  omega

lemma dotComma_pad (w n : ℕ) :
    (padLeftZeros w (natDigits n)).map dotComma = padLeftZeros w (natDigits n) := by
  unfold padLeftZeros
  rw [List.map_append, List.map_replicate, dotComma_natDigits,
    show dotComma '0' = '0' by decide]

lemma secStr_eq (s3 : ℕ) :
    padLeftZeros 6 (natDigits (s3 / 1000) ++ '.' :: padLeftZeros 3 (natDigits (s3 % 1000)))
      = padLeftZeros 2 (natDigits (s3 / 1000))
          ++ '.' :: padLeftZeros 3 (natDigits (s3 % 1000)) := by
  have hf : (natDigits (s3 % 1000)).length ≤ 3 := by
    apply natDigits_len_le (by norm_num)
    have h' : s3 % 1000 < 1000 := Nat.mod_lt _ (by norm_num)
    norm_num
    omega
  have hpad3 : (padLeftZeros 3 (natDigits (s3 % 1000))).length = 3 := by
    rw [padLeftZeros_length]
    omega
  have hlen : (natDigits (s3 / 1000) ++ '.' :: padLeftZeros 3 (natDigits (s3 % 1000))).length
      = (natDigits (s3 / 1000)).length + 4 := by
    simp [List.length_append, hpad3]
  show List.replicate
        (6 - (natDigits (s3 / 1000) ++ '.' :: padLeftZeros 3 (natDigits (s3 % 1000))).length)
        '0' ++ (natDigits (s3 / 1000) ++ '.' :: padLeftZeros 3 (natDigits (s3 % 1000)))
      = (List.replicate (2 - (natDigits (s3 / 1000)).length) '0' ++ natDigits (s3 / 1000))
        ++ '.' :: padLeftZeros 3 (natDigits (s3 % 1000))
  rw [hlen, show 6 - ((natDigits (s3 / 1000)).length + 4)
      = 2 - (natDigits (s3 / 1000)).length by omega, List.append_assoc]

/-- C7: for every (millisecond-exact) nonnegative time value, the timestamp
formatter returns a string of the form
`hours:minutes:seconds,milliseconds` — the sub-second separator is a comma,
hours, minutes and seconds are each zero-padded to (at least, and for
minutes/seconds exactly) two digits, and milliseconds are zero-padded to
exactly three digits. -/
theorem c7_timestamp_format (ms : ℕ) :
    formatTimestampMs ms
      = padLeftZeros 2 (natDigits (ms / 3600000))
          ++ ':' :: padLeftZeros 2 (natDigits (ms % 3600000 / 60000))
          ++ ':' :: padLeftZeros 2 (natDigits (ms % 60000 / 1000))
          ++ ',' :: padLeftZeros 3 (natDigits (ms % 1000)) ∧
    (padLeftZeros 2 (natDigits (ms / 3600000))).length
      = max 2 (natDigits (ms / 3600000)).length ∧
    (padLeftZeros 2 (natDigits (ms % 3600000 / 60000))).length = 2 ∧
    (padLeftZeros 2 (natDigits (ms % 60000 / 1000))).length = 2 ∧
    (padLeftZeros 3 (natDigits (ms % 1000))).length = 3 := by
  have hmod : ms % 60000 % 1000 = ms % 1000 := Nat.mod_mod_of_dvd ms (by norm_num)
  refine ⟨?_, ?_, ?_, ?_, ?_⟩
  · simp only [formatTimestampMs]
    rw [secStr_eq (ms % 60000), hmod]
    simp only [List.map_append, List.map_cons, dotComma_pad,
      show dotComma ':' = ':' by decide, show dotComma '.' = ',' by decide]
    simp [List.append_assoc]
  · rw [padLeftZeros_length]
  · rw [padLeftZeros_length]
    have hlt : ms % 3600000 / 60000 < 60 := by omega
    have hd2 : (natDigits (ms % 3600000 / 60000)).length ≤ 2 := by
      apply natDigits_len_le (by norm_num)
      norm_num
      omega
    omega
  · rw [padLeftZeros_length]
    have hlt : ms % 60000 / 1000 < 60 := by omega
    have hd2 : (natDigits (ms % 60000 / 1000)).length ≤ 2 := by
      apply natDigits_len_le (by norm_num)
      norm_num
      omega
    omega
  · rw [padLeftZeros_length]
    have hlt : ms % 1000 < 1000 := by omega
    have hd3 : (natDigits (ms % 1000)).length ≤ 3 := by
      apply natDigits_len_le (by norm_num)
      norm_num
      omega
    omega

end PyWhisper
